import Mathlib

/-!
Shallow embedding of the versioned release orchestrator of
`@fiquu/slseed-web-utils`: the deploy flow (`src/deploy/app/index.ts`),
the retention pruner (`src/deploy/app/prune.ts`) and the CloudFormation
stack status poll loop (`src/setup/stack/index.ts`).

External collaborators (S3 listing, zlib, the mime table, inquirer
prompts) are modelled as explicit inputs: an S3 bucket is a list of
object keys, a listing of common prefixes is the (provider-sorted) list
S3 would return, zlib's `gzipSync` is an abstract codec parameter, and a
prompt answer is an input picking function.  Every function that embeds
a source function keeps its source name.
-/

namespace Slseed

/-! ### Path helpers (Node `path.basename` / `path.extname` over POSIX paths) -/

/-- Split a character list on a separator character, keeping empty segments,
as `String.split` does for one separator. -/
def splitOnChar (sep : Char) : List Char → List (List Char)
  | [] => [[]]
  | x :: rest =>
    let r := splitOnChar sep rest
    if x = sep then [] :: r
    else
      match r with
      | [] => [[x]]
      | h :: t => (x :: h) :: t

/-- Node `path.basename`: the last non-empty path segment. -/
def basename (s : String) : String :=
  String.mk (((splitOnChar '/' s.data).filter (fun seg => !seg.isEmpty)).getLastD [])

/-- The extension of a base name: from the last dot on, empty when there is no
dot or the only dot starts the name (dot-files have no extension). -/
def extnameChars (b : List Char) : List Char :=
  match b.reverse.findIdx? (fun c => c = '.') with
  | none => []
  | some k =>
    let i := b.length - 1 - k
    if i = 0 then [] else b.drop i

/-- Node `path.extname`: extension of the basename, including the dot. -/
def extname (s : String) : String :=
  String.mk (extnameChars (basename s).data)

/-- Collapse runs of consecutive slashes, the normalization `posix.join`
performs on the joined segments. -/
def dedupSlash : List Char → List Char
  | [] => []
  | [c] => [c]
  | a :: b :: rest =>
    if a = '/' ∧ b = '/' then dedupSlash (b :: rest)
    else a :: dedupSlash (b :: rest)

/-- Node `posix.join` of two segments, for the already-normalized paths the
deploy flow feeds it. -/
def posixJoin (a b : String) : String :=
  String.mk (dedupSlash (a ++ "/" ++ b).data)

/-- `pfx` is a leading substring of `s` (the semantics of an S3 `Prefix`
listing parameter). -/
def strStartsWith (pfx s : String) : Bool :=
  pfx.data.isPrefixOf s.data

/-- Strict lexicographic order on character lists by code point: the order
S3 sorts keys and common prefixes in (UTF-8 binary order). -/
def charListLt : List Char → List Char → Bool
  | [], [] => false
  | [], _ :: _ => true
  | _ :: _, [] => false
  | a :: as, b :: bs => if a < b then true else if b < a then false else charListLt as bs

/-! ### Artifact classifier and uploader (`src/deploy/app/index.ts`) -/

/-- The `specFiles` constant of `src/deploy/app/index.ts`: `gzip` holds the
compressible extensions, `pwa` the entry-point basenames. -/
def specFilesGzip : List String :=
  [".js", ".css", ".json", ".ico", ".map", ".xml", ".txt", ".svg", ".eot", ".ttf", ".woff", ".woff2"]

/-- The entry-point file set of the `specFiles` constant. -/
def specFilesPwa : List String :=
  ["index.html", "service-worker.js", "manifest.json"]

/-- The body passed to `s3.upload`: a gzipped buffer or a raw read stream. -/
inductive BodyData where
  | buffer (bytes : List UInt8)
  | stream (bytes : List UInt8)
  deriving DecidableEq, Repr

/-- The byte content S3 stores for either body kind. -/
def BodyData.bytes : BodyData → List UInt8
  | .buffer b => b
  | .stream b => b

/-- The `PutObjectRequest` built per file by `uploadFiles`. -/
structure PutObjectRequest where
  ContentType : Option String
  CacheControl : String
  ContentEncoding : Option String
  Bucket : String
  Key : String
  Body : BodyData
  deriving DecidableEq, Repr

/-- The per-file request construction inside `uploadFiles`
(`src/deploy/app/index.ts` lines 117-139).  `gzipSync` abstracts
`zlib.gzipSync` (first argument the compression level), `contentTypeOf`
abstracts the `mime-types` lookup, `filename` is the file path relative to
the dist directory (leading slash included, as produced by
`file.replace(slseedrc.dist, '')`). -/
def uploadParams (gzipSync : Nat → List UInt8 → List UInt8)
    (contentTypeOf : String → Option String)
    (Bucket version filename : String) (bytes : List UInt8) : PutObjectRequest :=
  let Key := posixJoin ("v" ++ version) filename
  let base : PutObjectRequest :=
    { ContentType := contentTypeOf (extname filename)
      CacheControl := "max-age=86400"
      ContentEncoding := none
      Bucket := Bucket
      Key := Key
      Body := BodyData.stream bytes }
  let withCache :=
    if specFilesPwa.contains (basename filename) then
      { base with CacheControl := "no-store, no-cache, must-revalidate, proxy-revalidate, max-age=0" }
    else base
  if specFilesGzip.contains (extname filename) then
    { withCache with
      Body := BodyData.buffer (gzipSync 9 bytes)
      ContentEncoding := some "gzip" }
  else withCache

/-- A cache-control header that forbids caching: it carries the strict
revalidation directives. -/
def forbidsCaching (s : String) : Prop :=
  List.IsInfix "no-store".data s.data ∧
  List.IsInfix "no-cache".data s.data ∧
  List.IsInfix "must-revalidate".data s.data

/-- A cache-control header that allows long-lived caching: a day-long
max-age and none of the directives that forbid reuse. -/
def allowsLongLivedCaching (s : String) : Prop :=
  List.IsInfix "max-age=86400".data s.data ∧
  ¬ List.IsInfix "no-store".data s.data ∧
  ¬ List.IsInfix "no-cache".data s.data ∧
  ¬ List.IsInfix "must-revalidate".data s.data

/-! ### Deploy flow barrier (`deploy`, `src/deploy/app/index.ts` lines 215-244) -/

/-- The effectful calls of `deploy` the claims observe. -/
inductive DeployStep where
  | uploadFilesCall
  | distUpdateCall
  deriving DecidableEq, Repr

/-- `Promise.all`: resolves with every value when all promises resolve,
rejects when any promise rejects. -/
def promiseAll {ε α : Type} : List (Except ε α) → Except ε (List α)
  | [] => Except.ok []
  | Except.error e :: _ => Except.error e
  | Except.ok a :: rest => (promiseAll rest).map (fun l => a :: l)

/-- `uploadFiles`: one upload per enumerated file, joined with
`Promise.all`; `uploadResult` gives each file's outcome. -/
def uploadFiles {F : Type} (files : List F)
    (uploadResult : F → Except String Unit) : Except String (List Unit) :=
  promiseAll (files.map uploadResult)

/-- The `deploy` control flow: `await uploadFiles(...)` then, only when it
resolved, `await updateDistConfig(...)`; a rejection propagates and aborts
before the distribution update. Returns the trace of observed calls. -/
def deploy {F : Type} (files : List F)
    (uploadResult : F → Except String Unit) : List DeployStep :=
  match uploadFiles files uploadResult with
  | Except.error _ => [DeployStep.uploadFilesCall]
  | Except.ok _ => [DeployStep.uploadFilesCall, DeployStep.distUpdateCall]

/-! ### Release planner (`checkIfVersionDeployed` and the main IIFE guard) -/

/-- The `Contents` of `s3.listObjects` over a bucket modelled as a key list:
the keys under the prefix, truncated to `MaxKeys`. -/
def listObjectsContents (storage : List String) (pfx : String) (maxKeys : Nat) : List String :=
  (storage.filter (fun key => strStartsWith pfx key)).take maxKeys

/-- `checkIfVersionDeployed` (`src/deploy/app/index.ts` lines 75-89): lists
under `v<version>` with `MaxKeys` 1 and reports whether anything came back. -/
def checkIfVersionDeployed (storage : List String) (version : String) : Bool :=
  decide (0 < (listObjectsContents storage ("v" ++ version) 1).length)

/-- The calls of the main IIFE the planner claims observe. -/
inductive MainStep where
  | checkDeployedCall
  | deployCall
  deriving DecidableEq, Repr

/-- The already-deployed guard of the main IIFE (`src/deploy/app/index.ts`
lines 304-313): cancel when the version is deployed and either `autoDeploy`
is set or the operator declined the confirmation; otherwise run `deploy`. -/
def mainFlow (storage : List String) (version : String)
    (autoDeploy confirmed : Bool) : List MainStep :=
  let deployed := checkIfVersionDeployed storage version
  if deployed && (autoDeploy || !confirmed) then [MainStep.checkDeployedCall]
  else [MainStep.checkDeployedCall, MainStep.deployCall]

/-! ### Provisioning poll loop (`checkStackStatus`, `src/setup/stack/index.ts`) -/

/-- One `describeStack` response. -/
structure DescribeResult where
  StackStatus : String
  Outputs : List (String × String)
  deriving DecidableEq, Repr

/-- The statuses the `switch` of `checkStackStatus` keeps polling on. -/
def isInProgressStatus (s : String) : Bool :=
  s == "UPDATE_COMPLETE_CLEANUP_IN_PROGRESS" || s == "CREATE_IN_PROGRESS" || s == "UPDATE_IN_PROGRESS"

/-- The statuses the `switch` of `checkStackStatus` treats as success. -/
def isCompleteStatus (s : String) : Bool :=
  s == "CREATE_COMPLETE" || s == "UPDATE_COMPLETE"

/-- The observable outcome of the poll loop: outputs on success, the
reported status string on any other terminal status. -/
inductive StackCheckOutcome where
  | success (outputs : List (String × String))
  | failure (status : String)
  deriving DecidableEq, Repr

/-- `checkStackStatus` (`src/setup/stack/index.ts` lines 82-110) over the
finite sequence of statuses the describe call returns: in-progress statuses
loop, the first other status is terminal; `none` models a sequence that
never leaves the in-progress set within the observation. -/
def checkStackStatus : List DescribeResult → Option StackCheckOutcome
  | [] => none
  | d :: rest =>
    if isInProgressStatus d.StackStatus then checkStackStatus rest
    else if isCompleteStatus d.StackStatus then some (StackCheckOutcome.success d.Outputs)
    else some (StackCheckOutcome.failure d.StackStatus)

/-! ### Retention pruner (`src/deploy/app/prune.ts`) -/

/-- JavaScript `Array.prototype.filter` with the element index passed to the
callback, as `versions.filter((value, i) => ...)` uses it. -/
def jsFilterWithIndex {α : Type} (p : α → Nat → Bool) : List α → Nat → List α
  | [], _ => []
  | v :: rest, i =>
    if p v i then v :: jsFilterWithIndex p rest (i + 1)
    else jsFilterWithIndex p rest (i + 1)

/-- The automatic-mode selection of `prunePreviousVersions`
(`src/deploy/app/prune.ts` line 141):
`versions.filter((value, i) => value !== current && i > 2)`. -/
def autoSelectVersions (current : String) (versions : List String) : List String :=
  jsFilterWithIndex (fun value i => value != current && decide (2 < i)) versions 0

/-- One checkbox choice of the interactive prune prompt. -/
structure PromptChoice where
  value : String
  disabled : Bool
  checked : Bool
  deriving DecidableEq, Repr

/-- The choice list `promptVersions` builds (`src/deploy/app/prune.ts` lines
89-112): current and the first three positions are disabled, everything
else is enabled and checked by default. -/
def promptChoices (current : String) : List String → Nat → List PromptChoice
  | [], _ => []
  | value :: rest, i =>
    (if value = current then { value := value, disabled := true, checked := false }
     else if i < 3 then { value := value, disabled := true, checked := false }
     else { value := value, disabled := false, checked := true }) :: promptChoices current rest (i + 1)

/-- The inquirer checkbox answer: the operator toggles enabled choices via
`pick`; disabled choices can never be selected. -/
def checkboxResult (pick : Nat → Bool) : List PromptChoice → Nat → List String
  | [], _ => []
  | ch :: rest, i =>
    if !ch.disabled && pick i then ch.value :: checkboxResult pick rest (i + 1)
    else checkboxResult pick rest (i + 1)

/-- The observable outcome of `prunePreviousVersions`: skipped with a
warning, or the list of versions selected for deletion. -/
inductive PruneResult where
  | skipped
  | pruned (deleted : List String)
  deriving DecidableEq, Repr

/-- `prunePreviousVersions` (`src/deploy/app/prune.ts` lines 122-152) over
the listed `versions`: fewer than four versions warn and skip; otherwise
automatic mode deletes the index-filtered selection and interactive mode
deletes the prompt answer. -/
def prunePreviousVersions (current : String) (versions : List String)
    (autoDeploy : Bool) (pick : Nat → Bool) : PruneResult :=
  if versions.length < 4 then PruneResult.skipped
  else
    PruneResult.pruned
      (if autoDeploy then autoSelectVersions current versions
       else checkboxResult pick (promptChoices current versions 0) 0)

/-! ### Version listing (`listVersionsInBucket`, `src/deploy/app/prune.ts`) -/

/-- A common prefix present in storage together with the creation time of
its version (the model's recency attribute; S3 does not report it). -/
structure StoredVersion where
  dir : String
  createdAt : Nat
  deriving DecidableEq, Repr

/-- Matching core of the regex `^v?([^/]+)\/?$` once the optional leading
`v` has been handled: an optional trailing slash is dropped and the rest
must be non-empty and slash-free. -/
def matchBody (body : List Char) : Option (List Char) :=
  let core := if body.getLast? = some '/' then body.dropLast else body
  if core ≠ [] ∧ '/' ∉ core then some core else none

/-- `Prefix.replace(/^v?([^\/]+)\/?$/, '$1')`: strip the optional leading
`v` and the trailing slash of a common prefix, leaving non-matching strings
unchanged. -/
def regexReplaceVersion (s : String) : String :=
  let result :=
    match s.data with
    | 'v' :: rest => (matchBody rest).orElse (fun _ => matchBody s.data)
    | _ => matchBody s.data
  match result with
  | some core => String.mk core
  | none => s

/-- `listVersionsInBucket` (`src/deploy/app/prune.ts` lines 20-36) applied
to the `CommonPrefixes` S3 returns (S3 sorts them in ascending UTF-8 order):
strip each prefix to its version and reverse. -/
def listVersionsInBucket (commonPrefixes : List String) : List String :=
  (commonPrefixes.map regexReplaceVersion).reverse

/-- `listVersionsInBucket` with each entry's creation time carried along, to
state recency properties of the derived ordering. -/
def listVersionEntries (entries : List StoredVersion) : List (String × Nat) :=
  (entries.map (fun e => (regexReplaceVersion e.dir, e.createdAt))).reverse

/-! ### Cutover manager (`updateDistConfig`, `src/deploy/app/index.ts`) -/

/-- One CloudFront origin: the three fields `updateDistConfig` rewrites plus
`rest` for every field the spread copies untouched. -/
structure Origin where
  DomainName : String
  Id : String
  OriginPath : String
  rest : List (String × String)
  deriving DecidableEq, Repr

/-- The `Origins` member of a distribution configuration. -/
structure OriginList where
  Quantity : Nat
  Items : List Origin
  deriving DecidableEq, Repr

/-- The default cache behavior: the rewritten target-origin id plus `rest`
for the spread-copied fields. -/
structure CacheBehaviorConfig where
  TargetOriginId : String
  rest : List (String × String)
  deriving DecidableEq, Repr

/-- A distribution configuration: the fields `updateDistConfig` touches plus
`rest` for everything the top-level spread copies untouched. -/
structure DistConfig where
  DefaultRootObject : String
  OriginsMember : OriginList
  DefaultCacheBehavior : CacheBehaviorConfig
  rest : List (String × String)
  deriving DecidableEq, Repr

/-- The response of `cloudfront.getDistributionConfig`. -/
structure GetDistConfigResult where
  DistributionConfig : DistConfig
  ETag : String
  deriving DecidableEq, Repr

/-- The request `cloudfront.updateDistribution` receives. -/
structure UpdateDistRequest where
  Id : String
  IfMatch : String
  DistributionConfig : DistConfig
  deriving DecidableEq, Repr

/-- `Items.pop()` followed by an object spread: the last origin when one
exists, and the spread of `undefined` (an object with no copied fields)
when the list is empty. -/
def poppedOrigin (items : List Origin) : Origin :=
  items.getLastD { DomainName := "", Id := "", OriginPath := "", rest := [] }

/-- `updateDistConfig` (`src/deploy/app/index.ts` lines 164-190): fetch the
configuration and its ETag, rewrite the root object, the single origin and
the default cache behavior's target origin, and submit conditioned on the
fetched ETag. -/
def updateDistConfig (distId bucket version : String)
    (fetched : GetDistConfigResult) : UpdateDistRequest :=
  let c := fetched.DistributionConfig
  { Id := distId
    IfMatch := fetched.ETag
    DistributionConfig :=
      { c with
        DefaultRootObject := "index.html"
        OriginsMember :=
          { Quantity := 1
            Items := [{ poppedOrigin c.OriginsMember.Items with
                        DomainName := bucket ++ ".s3.amazonaws.com"
                        Id := "S3-" ++ bucket ++ "/v" ++ version
                        OriginPath := "/v" ++ version }] }
        DefaultCacheBehavior :=
          { c.DefaultCacheBehavior with
            TargetOriginId := "S3-" ++ bucket ++ "/v" ++ version } } }

/-! ## Theorems -/

/-- `Promise.all` resolves exactly when every joined promise resolves. -/
theorem promiseAll_isOk_iff {ε α : Type} (l : List (Except ε α)) :
    (∃ v, promiseAll l = Except.ok v) ↔ ∀ x ∈ l, ∃ a, x = Except.ok a := by
  induction l with
  | nil => simp [promiseAll]
  | cons x rest ih =>
    cases x with
    | error e => simp [promiseAll]
    | ok a =>
      simp only [promiseAll, List.mem_cons]
      constructor
      · rintro ⟨v, hv⟩
        cases hrest : promiseAll rest with
        | error e => rw [hrest] at hv; cases hv
        | ok w =>
          intro y hy
          rcases hy with rfl | hy
          · exact ⟨a, rfl⟩
          · exact (ih.mp ⟨w, hrest⟩) y hy
      · intro h
        rcases ih.mpr (fun y hy => h y (Or.inr hy)) with ⟨w, hw⟩
        exact ⟨a :: w, by rw [hw]; rfl⟩

/-- C1: the CloudFront distribution update is requested by the deploy flow
if and only if every enumerated file uploaded successfully; any single
failed upload aborts the flow before the distribution update. -/
theorem deploy_cutover_iff {F : Type} (files : List F)
    (uploadResult : F → Except String Unit) :
    DeployStep.distUpdateCall ∈ deploy files uploadResult ↔
      ∀ f ∈ files, uploadResult f = Except.ok () := by
  unfold deploy uploadFiles
  cases h : promiseAll (files.map uploadResult) with
  | error e =>
    simp only [List.mem_singleton]
    constructor
    · intro hmem; cases hmem
    · intro hall
      exfalso
      have hok : ∃ v, promiseAll (files.map uploadResult) = Except.ok v := by
        refine (promiseAll_isOk_iff _).mpr ?_
        intro x hx
        rcases List.mem_map.mp hx with ⟨f, hf, rfl⟩
        exact ⟨(), hall f hf⟩
      rcases hok with ⟨v, hv⟩
      rw [h] at hv
      cases hv
  | ok v =>
    constructor
    · intro _ f hf
      rcases (promiseAll_isOk_iff _).mp ⟨v, h⟩ (uploadResult f)
          (List.mem_map_of_mem uploadResult hf) with ⟨a, ha⟩
      cases a
      exact ha
    · intro _
      simp

/-- C3: the poll loop skips every in-progress status, stops at the first
status outside the in-progress set, yields the outputs exactly when that
terminal status is a complete status, and otherwise reports the status
string without outputs. -/
theorem checkStackStatus_first_terminal (pre : List DescribeResult)
    (d : DescribeResult) (rest : List DescribeResult)
    (hpre : ∀ x ∈ pre, isInProgressStatus x.StackStatus = true)
    (hd : isInProgressStatus d.StackStatus = false) :
    checkStackStatus (pre ++ d :: rest) =
      some (if isCompleteStatus d.StackStatus then StackCheckOutcome.success d.Outputs
            else StackCheckOutcome.failure d.StackStatus) := by
  induction pre with
  | nil =>
    simp only [List.nil_append, checkStackStatus, hd, Bool.false_eq_true, if_false]
    rw [apply_ite some]
  | cons x xs ih =>
    have hx := hpre x (List.mem_cons_self x xs)
    simp only [List.cons_append, checkStackStatus, hx, if_true]
    exact ih (fun y hy => hpre y (List.mem_cons_of_mem x hy))

/-- Witness for C3: two in-progress polls followed by `CREATE_COMPLETE`
succeed with the reported outputs. -/
theorem checkStackStatus_first_terminal_witness :
    checkStackStatus
        [⟨"CREATE_IN_PROGRESS", []⟩, ⟨"CREATE_IN_PROGRESS", []⟩,
          ⟨"CREATE_COMPLETE", [("ApiId", "abc")]⟩] =
      some (StackCheckOutcome.success [("ApiId", "abc")]) := by
  have h := checkStackStatus_first_terminal
    [⟨"CREATE_IN_PROGRESS", []⟩, ⟨"CREATE_IN_PROGRESS", []⟩]
    ⟨"CREATE_COMPLETE", [("ApiId", "abc")]⟩ [] (by decide) (by decide)
  exact h.trans (by decide)

/-- C5: files whose basename is an entry-point name get the strict
no-store cache-control header, every other file gets the long-lived
`max-age=86400` header. -/
theorem uploadParams_cacheControl (gzipSync : Nat → List UInt8 → List UInt8)
    (contentTypeOf : String → Option String)
    (Bucket version filename : String) (bytes : List UInt8) :
    (specFilesPwa.contains (basename filename) = true →
      (uploadParams gzipSync contentTypeOf Bucket version filename bytes).CacheControl =
          "no-store, no-cache, must-revalidate, proxy-revalidate, max-age=0" ∧
        forbidsCaching
          (uploadParams gzipSync contentTypeOf Bucket version filename bytes).CacheControl) ∧
    (specFilesPwa.contains (basename filename) = false →
      (uploadParams gzipSync contentTypeOf Bucket version filename bytes).CacheControl =
          "max-age=86400" ∧
        allowsLongLivedCaching
          (uploadParams gzipSync contentTypeOf Bucket version filename bytes).CacheControl) := by
  constructor
  · intro h
    have hcc :
        (uploadParams gzipSync contentTypeOf Bucket version filename bytes).CacheControl =
          "no-store, no-cache, must-revalidate, proxy-revalidate, max-age=0" := by
      unfold uploadParams
      simp only [h, if_true]
      split <;> rfl
    refine ⟨hcc, ?_⟩
    rw [hcc]
    unfold forbidsCaching
    decide
  · intro h
    have hcc :
        (uploadParams gzipSync contentTypeOf Bucket version filename bytes).CacheControl =
          "max-age=86400" := by
      unfold uploadParams
      simp only [h, Bool.false_eq_true, if_false]
      split <;> rfl
    refine ⟨hcc, ?_⟩
    rw [hcc]
    unfold allowsLongLivedCaching
    decide

/-- Witness for C5: `/index.html` gets the no-store header and `/logo.png`
gets the long-lived header. -/
theorem uploadParams_cacheControl_witness :
    ((uploadParams (fun _ b => b) (fun _ => none) "bkt" "1.0.0" "/index.html" []).CacheControl =
        "no-store, no-cache, must-revalidate, proxy-revalidate, max-age=0" ∧
      forbidsCaching
        (uploadParams (fun _ b => b) (fun _ => none) "bkt" "1.0.0" "/index.html" []).CacheControl) ∧
    ((uploadParams (fun _ b => b) (fun _ => none) "bkt" "1.0.0" "/logo.png" []).CacheControl =
        "max-age=86400" ∧
      allowsLongLivedCaching
        (uploadParams (fun _ b => b) (fun _ => none) "bkt" "1.0.0" "/logo.png" []).CacheControl) :=
  ⟨(uploadParams_cacheControl (fun _ b => b) (fun _ => none) "bkt" "1.0.0" "/index.html" []).1
      (by decide),
    (uploadParams_cacheControl (fun _ b => b) (fun _ => none) "bkt" "1.0.0" "/logo.png" []).2
      (by decide)⟩

/-- C6: files with a compressible extension upload the level-9 gzip of
their bytes under content-encoding gzip, so any decoder inverting the codec
recovers the original bytes; every other file uploads its raw bytes with no
content-encoding. -/
theorem uploadParams_gzip_roundtrip (gzipSync : Nat → List UInt8 → List UInt8)
    (gunzipSync : List UInt8 → List UInt8)
    (hround : ∀ b, gunzipSync (gzipSync 9 b) = b)
    (contentTypeOf : String → Option String)
    (Bucket version filename : String) (bytes : List UInt8) :
    (specFilesGzip.contains (extname filename) = true →
      (uploadParams gzipSync contentTypeOf Bucket version filename bytes).Body =
          BodyData.buffer (gzipSync 9 bytes) ∧
        (uploadParams gzipSync contentTypeOf Bucket version filename bytes).ContentEncoding =
          some "gzip" ∧
        gunzipSync
            ((uploadParams gzipSync contentTypeOf Bucket version filename bytes).Body.bytes) =
          bytes) ∧
    (specFilesGzip.contains (extname filename) = false →
      (uploadParams gzipSync contentTypeOf Bucket version filename bytes).Body =
          BodyData.stream bytes ∧
        (uploadParams gzipSync contentTypeOf Bucket version filename bytes).ContentEncoding =
          none) := by
  constructor
  · intro h
    have hbody :
        (uploadParams gzipSync contentTypeOf Bucket version filename bytes).Body =
          BodyData.buffer (gzipSync 9 bytes) := by
      unfold uploadParams
      simp only [h, if_true]
    have henc :
        (uploadParams gzipSync contentTypeOf Bucket version filename bytes).ContentEncoding =
          some "gzip" := by
      unfold uploadParams
      simp only [h, if_true]
    refine ⟨hbody, henc, ?_⟩
    rw [hbody]
    exact hround bytes
  · intro h
    unfold uploadParams
    simp only [h, Bool.false_eq_true, if_false]
    split <;> exact ⟨rfl, rfl⟩

/-- Stepping a membership fact past one list position while the remaining
guard distance shrinks by one. -/
theorem mem_drop_cons_of_mem_drop {α : Type} (a : α) (rest : List α) (k : Nat) (v : α)
    (h : v ∈ rest.drop (3 - (k + 1))) : v ∈ (a :: rest).drop (3 - k) := by
  by_cases hk : k < 3
  · have h3k : 3 - k = (3 - (k + 1)) + 1 := by omega
    rw [h3k, List.drop_succ_cons]
    exact h
  · have h30 : 3 - k = 0 := by omega
    have h20 : 3 - (k + 1) = 0 := by omega
    rw [h30, List.drop_zero]
    rw [h20, List.drop_zero] at h
    exact List.mem_cons_of_mem _ h

/-- Every member of the index-guarded prune filter differs from the current
version and lies past the first `3 - k` positions. -/
theorem mem_jsFilterWithIndex_prune (current : String) (l : List String) :
    ∀ (k : Nat) (v : String),
      v ∈ jsFilterWithIndex (fun value i => value != current && decide (2 < i)) l k →
      v ≠ current ∧ v ∈ l.drop (3 - k) := by
  induction l with
  | nil => intro k v h; cases h
  | cons a rest ih =>
    intro k v h
    unfold jsFilterWithIndex at h
    by_cases hp : (a != current && decide (2 < k)) = true
    · rw [if_pos hp] at h
      have hane : a ≠ current := bne_iff_ne.mp ((Bool.and_eq_true _ _).mp hp).1
      have hk : 2 < k := of_decide_eq_true ((Bool.and_eq_true _ _).mp hp).2
      have h30 : 3 - k = 0 := by omega
      rw [h30, List.drop_zero]
      rcases List.mem_cons.mp h with rfl | h2
      · exact ⟨hane, List.mem_cons_self _ _⟩
      · obtain ⟨hne, hdrop⟩ := ih (k + 1) v h2
        have h20 : 3 - (k + 1) = 0 := by omega
        rw [h20, List.drop_zero] at hdrop
        exact ⟨hne, List.mem_cons_of_mem _ hdrop⟩
    · rw [if_neg hp] at h
      obtain ⟨hne, hdrop⟩ := ih (k + 1) v h
      exact ⟨hne, mem_drop_cons_of_mem_drop a rest k v hdrop⟩

/-- A disabled checkbox choice is skipped whatever the operator picks. -/
theorem checkboxResult_disabled_cons (pick : Nat → Bool) (val : String) (ch : Bool)
    (rest : List PromptChoice) (k : Nat) :
    checkboxResult pick ({ value := val, disabled := true, checked := ch } :: rest) k =
      checkboxResult pick rest (k + 1) := by
  conv_lhs => unfold checkboxResult
  simp only [Bool.not_true, Bool.false_and, Bool.false_eq_true, if_false]

/-- An enabled checkbox choice is taken exactly when the operator picks it. -/
theorem checkboxResult_enabled_cons (pick : Nat → Bool) (val : String)
    (rest : List PromptChoice) (k : Nat) :
    checkboxResult pick ({ value := val, disabled := false, checked := true } :: rest) k =
      if pick k then val :: checkboxResult pick rest (k + 1)
      else checkboxResult pick rest (k + 1) := by
  conv_lhs => unfold checkboxResult
  simp only [Bool.not_false, Bool.true_and]

/-- Every member of the interactive prune answer differs from the current
version and lies past the first `3 - k` positions: disabled choices cannot
be selected. -/
theorem mem_checkboxResult_prune (current : String) (pick : Nat → Bool) (l : List String) :
    ∀ (k : Nat) (v : String),
      v ∈ checkboxResult pick (promptChoices current l k) k →
      v ≠ current ∧ v ∈ l.drop (3 - k) := by
  induction l with
  | nil => intro k v h; cases h
  | cons a rest ih =>
    intro k v h
    unfold promptChoices at h
    by_cases ha : a = current
    · rw [if_pos ha, checkboxResult_disabled_cons] at h
      obtain ⟨hne, hdrop⟩ := ih (k + 1) v h
      exact ⟨hne, mem_drop_cons_of_mem_drop a rest k v hdrop⟩
    · rw [if_neg ha] at h
      by_cases hk : k < 3
      · rw [if_pos hk, checkboxResult_disabled_cons] at h
        obtain ⟨hne, hdrop⟩ := ih (k + 1) v h
        exact ⟨hne, mem_drop_cons_of_mem_drop a rest k v hdrop⟩
      · rw [if_neg hk, checkboxResult_enabled_cons] at h
        by_cases hpk : pick k = true
        · rw [if_pos hpk] at h
          rcases List.mem_cons.mp h with rfl | h2
          · have h30 : 3 - k = 0 := by omega
            rw [h30, List.drop_zero]
            exact ⟨ha, List.mem_cons_self _ _⟩
          · obtain ⟨hne, hdrop⟩ := ih (k + 1) v h2
            exact ⟨hne, mem_drop_cons_of_mem_drop a rest k v hdrop⟩
        · rw [if_neg hpk] at h
          obtain ⟨hne, hdrop⟩ := ih (k + 1) v h
          exact ⟨hne, mem_drop_cons_of_mem_drop a rest k v hdrop⟩

/-- C2: with fewer than four listed versions the pruner skips as a warned
no-op, and in either mode the deletion selection never contains the current
version or any of the three most recent listed versions (the current one
and the two predecessors the code keeps). -/
theorem prunePreviousVersions_safe (current : String) (versions : List String)
    (autoDeploy : Bool) (pick : Nat → Bool) (hnd : versions.Nodup) :
    (versions.length < 4 →
        prunePreviousVersions current versions autoDeploy pick = PruneResult.skipped) ∧
    ∀ deleted,
      prunePreviousVersions current versions autoDeploy pick = PruneResult.pruned deleted →
        current ∉ deleted ∧ ∀ v ∈ versions.take 3, v ∉ deleted := by
  constructor
  · intro h
    unfold prunePreviousVersions
    rw [if_pos h]
  · intro deleted hdel
    unfold prunePreviousVersions at hdel
    by_cases hlen : versions.length < 4
    · rw [if_pos hlen] at hdel
      cases hdel
    · rw [if_neg hlen] at hdel
      injection hdel with hdel
      subst hdel
      have hmem : ∀ v,
          v ∈ (if autoDeploy then autoSelectVersions current versions
               else checkboxResult pick (promptChoices current versions 0) 0) →
          v ≠ current ∧ v ∈ versions.drop 3 := by
        intro v hv
        by_cases hauto : autoDeploy = true
        · rw [if_pos hauto] at hv
          exact mem_jsFilterWithIndex_prune current versions 0 v hv
        · rw [if_neg hauto] at hv
          exact mem_checkboxResult_prune current pick versions 0 v hv
      constructor
      · intro hc
        exact (hmem current hc).1 rfl
      · intro v hv3 hvd
        obtain ⟨hne, hdropv⟩ := hmem v hvd
        have hsplit : (versions.take 3 ++ versions.drop 3).Nodup := by
          rw [List.take_append_drop]
          exact hnd
        exact (List.nodup_append.mp hsplit).2.2 hv3 hdropv

/-- Witness for C2: pruning `[5, 4, 3, 2, 1]` with current version `5`
keeps the current and two previous versions and deletes only `2` and `1`. -/
theorem prunePreviousVersions_safe_witness :
    "5" ∉ (["2", "1"] : List String) ∧
    ∀ v ∈ (["5", "4", "3", "2", "1"] : List String).take 3,
      v ∉ (["2", "1"] : List String) :=
  (prunePreviousVersions_safe "5" ["5", "4", "3", "2", "1"] true (fun _ => true)
      (by decide)).2 ["2", "1"] (by decide)

/-- C4 (amended): the planner reports already-deployed exactly when some
object lies under the version prefix; when it does, the deploy runs only in
interactive mode with the operator confirming, and automatic mode cancels;
when it does not, the deploy always runs. -/
theorem checkIfVersionDeployed_guard (storage : List String) (version : String)
    (autoDeploy confirmed : Bool) :
    (checkIfVersionDeployed storage version = true ↔
        ∃ k ∈ storage, strStartsWith ("v" ++ version) k = true) ∧
    (checkIfVersionDeployed storage version = true →
        (MainStep.deployCall ∈ mainFlow storage version autoDeploy confirmed ↔
          autoDeploy = false ∧ confirmed = true)) ∧
    (checkIfVersionDeployed storage version = false →
        MainStep.deployCall ∈ mainFlow storage version autoDeploy confirmed) := by
  have hiff : checkIfVersionDeployed storage version = true ↔
      ∃ k ∈ storage, strStartsWith ("v" ++ version) k = true := by
    unfold checkIfVersionDeployed listObjectsContents
    rw [decide_eq_true_iff, List.length_take, lt_min_iff]
    constructor
    · rintro ⟨-, hlen⟩
      match hfe : storage.filter (fun key => strStartsWith ("v" ++ version) key) with
      | [] =>
        rw [hfe] at hlen
        simp at hlen
      | k :: tl =>
        have hk : k ∈ storage.filter (fun key => strStartsWith ("v" ++ version) key) := by
          rw [hfe]
          exact List.mem_cons_self _ _
        obtain ⟨hks, hkp⟩ := List.mem_filter.mp hk
        exact ⟨k, hks, hkp⟩
    · rintro ⟨k, hk, hp⟩
      refine ⟨one_pos, ?_⟩
      have hkf : k ∈ storage.filter (fun key => strStartsWith ("v" ++ version) key) :=
        List.mem_filter.mpr ⟨hk, hp⟩
      exact List.length_pos.mpr (List.ne_nil_of_mem hkf)
  refine ⟨hiff, ?_, ?_⟩
  · intro hdep
    cases autoDeploy <;> cases confirmed <;> simp [mainFlow, hdep]
  · intro hdep
    cases autoDeploy <;> cases confirmed <;> simp [mainFlow, hdep]

/-- Counterexample for C4 as stated: with the version already deployed and
automatic mode set (the claim's override), the flow cancels before `deploy`
instead of proceeding anyway. -/
theorem mainFlow_autoDeploy_counterexample :
    checkIfVersionDeployed ["v1.0.0/index.html"] "1.0.0" = true ∧
    MainStep.deployCall ∉ mainFlow ["v1.0.0/index.html"] "1.0.0" true false := by
  decide

/-- C9: there are two distinct versions, one a proper string prefix of the
other, and a storage state with objects only under the longer one, for
which the idempotency check reports the shorter one as deployed although
nothing lies under its own slash-terminated prefix. -/
theorem checkIfVersionDeployed_aliasing :
    ∃ (vShort vLong : String) (storage : List String),
      vShort ≠ vLong ∧
      strStartsWith vShort vLong = true ∧
      (∀ k ∈ storage, strStartsWith ("v" ++ vLong ++ "/") k = true) ∧
      (∀ k ∈ storage, strStartsWith ("v" ++ vShort ++ "/") k = false) ∧
      checkIfVersionDeployed storage vShort = true := by
  refine ⟨"1.2", "1.2.3", ["v1.2.3/index.html"], ?_, ?_, ?_, ?_, ?_⟩ <;> decide

/-- Witness for C6: with the identity codec, `/app.js` uploads a gzip body
that decodes back to the original bytes, and `/logo.png` uploads raw. -/
theorem uploadParams_gzip_roundtrip_witness :
    ((uploadParams (fun _ b => b) (fun _ => none) "bkt" "1.0.0" "/app.js" [7, 8]).ContentEncoding =
        some "gzip" ∧
      (fun b => b : List UInt8 → List UInt8)
          ((uploadParams (fun _ b => b) (fun _ => none) "bkt" "1.0.0" "/app.js" [7, 8]).Body.bytes) =
        [7, 8]) ∧
    ((uploadParams (fun _ b => b) (fun _ => none) "bkt" "1.0.0" "/logo.png" [7, 8]).Body =
        BodyData.stream [7, 8] ∧
      (uploadParams (fun _ b => b) (fun _ => none) "bkt" "1.0.0" "/logo.png" [7, 8]).ContentEncoding =
        none) :=
  ⟨⟨((uploadParams_gzip_roundtrip (fun _ b => b) (fun b => b) (fun _ => rfl) (fun _ => none)
        "bkt" "1.0.0" "/app.js" [7, 8]).1 (by decide)).2.1,
      ((uploadParams_gzip_roundtrip (fun _ b => b) (fun b => b) (fun _ => rfl) (fun _ => none)
        "bkt" "1.0.0" "/app.js" [7, 8]).1 (by decide)).2.2⟩,
    (uploadParams_gzip_roundtrip (fun _ b => b) (fun b => b) (fun _ => rfl) (fun _ => none)
        "bkt" "1.0.0" "/logo.png" [7, 8]).2 (by decide)⟩

/-- C7: for a single-origin configuration, the submitted configuration
agrees with the fetched one on every untouched field and rewrites only the
default root object, the origin's domain, id and path, and the default
cache behavior's target origin; the update request carries the fetched
ETag. -/
theorem updateDistConfig_frame (distId bucket version : String)
    (fetched : GetDistConfigResult) (o : Origin)
    (h1 : fetched.DistributionConfig.OriginsMember.Items = [o])
    (h2 : fetched.DistributionConfig.OriginsMember.Quantity = 1) :
    (updateDistConfig distId bucket version fetched).IfMatch = fetched.ETag ∧
    (updateDistConfig distId bucket version fetched).Id = distId ∧
    (updateDistConfig distId bucket version fetched).DistributionConfig.rest =
      fetched.DistributionConfig.rest ∧
    (updateDistConfig distId bucket version fetched).DistributionConfig.DefaultRootObject =
      "index.html" ∧
    (updateDistConfig distId bucket version fetched).DistributionConfig.OriginsMember.Quantity =
      fetched.DistributionConfig.OriginsMember.Quantity ∧
    (updateDistConfig distId bucket version fetched).DistributionConfig.OriginsMember.Items =
      [{ o with
          DomainName := bucket ++ ".s3.amazonaws.com"
          Id := "S3-" ++ bucket ++ "/v" ++ version
          OriginPath := "/v" ++ version }] ∧
    (updateDistConfig distId bucket
        version fetched).DistributionConfig.DefaultCacheBehavior.rest =
      fetched.DistributionConfig.DefaultCacheBehavior.rest ∧
    (updateDistConfig distId bucket
        version fetched).DistributionConfig.DefaultCacheBehavior.TargetOriginId =
      "S3-" ++ bucket ++ "/v" ++ version := by
  unfold updateDistConfig poppedOrigin
  dsimp only
  rw [h1, h2]
  simp [List.getLastD_cons, List.getLastD_nil]

/-- Witness for C7: a concrete single-origin configuration keeps its
untouched fields and gets the rewritten origin. -/
theorem updateDistConfig_frame_witness :
    (updateDistConfig "D1" "bkt" "1.0.0"
        ⟨⟨"old-root", ⟨1, [⟨"old.dom", "old-id", "/v0.9", [("S3OriginConfig", "x")]⟩]⟩,
            ⟨"old-target", [("ViewerProtocolPolicy", "https")]⟩, [("Comment", "c")]⟩,
          "ETAG1"⟩).IfMatch = "ETAG1" ∧
    (updateDistConfig "D1" "bkt" "1.0.0"
        ⟨⟨"old-root", ⟨1, [⟨"old.dom", "old-id", "/v0.9", [("S3OriginConfig", "x")]⟩]⟩,
            ⟨"old-target", [("ViewerProtocolPolicy", "https")]⟩, [("Comment", "c")]⟩,
          "ETAG1"⟩).DistributionConfig.OriginsMember.Items =
      [{ (⟨"old.dom", "old-id", "/v0.9", [("S3OriginConfig", "x")]⟩ : Origin) with
          DomainName := "bkt" ++ ".s3.amazonaws.com"
          Id := "S3-" ++ "bkt" ++ "/v" ++ "1.0.0"
          OriginPath := "/v" ++ "1.0.0" }] := by
  have h := updateDistConfig_frame "D1" "bkt" "1.0.0"
    ⟨⟨"old-root", ⟨1, [⟨"old.dom", "old-id", "/v0.9", [("S3OriginConfig", "x")]⟩]⟩,
        ⟨"old-target", [("ViewerProtocolPolicy", "https")]⟩, [("Comment", "c")]⟩,
      "ETAG1"⟩
    ⟨"old.dom", "old-id", "/v0.9", [("S3OriginConfig", "x")]⟩ rfl rfl
  exact ⟨h.1, h.2.2.2.2.2.1⟩

/-- C10: whatever the fetched origin list, the submitted configuration has
origin quantity one and a single origin item built from the last fetched
origin; all other origins are dropped. -/
theorem updateDistConfig_single_origin (distId bucket version : String)
    (fetched : GetDistConfigResult)
    (h : fetched.DistributionConfig.OriginsMember.Items ≠ []) :
    (updateDistConfig distId bucket version fetched).DistributionConfig.OriginsMember.Quantity =
      1 ∧
    (updateDistConfig distId bucket
        version fetched).DistributionConfig.OriginsMember.Items.length = 1 ∧
    (updateDistConfig distId bucket version fetched).DistributionConfig.OriginsMember.Items =
      [{ fetched.DistributionConfig.OriginsMember.Items.getLast h with
          DomainName := bucket ++ ".s3.amazonaws.com"
          Id := "S3-" ++ bucket ++ "/v" ++ version
          OriginPath := "/v" ++ version }] := by
  refine ⟨rfl, rfl, ?_⟩
  unfold updateDistConfig poppedOrigin
  dsimp only
  rw [List.getLastD_eq_getLast?, List.getLast?_eq_getLast _ h]
  rfl

/-- Witness for C10: with two fetched origins, the submitted configuration
keeps exactly one origin, built from the second (last) fetched origin. -/
theorem updateDistConfig_single_origin_witness :
    (updateDistConfig "D1" "bkt" "2.0.0"
        ⟨⟨"r", ⟨2, [⟨"first.dom", "first", "/a", [("k1", "v1")]⟩,
              ⟨"second.dom", "second", "/b", [("k2", "v2")]⟩]⟩, ⟨"t", []⟩, []⟩,
          "E"⟩).DistributionConfig.OriginsMember.Quantity = 1 ∧
    (updateDistConfig "D1" "bkt" "2.0.0"
        ⟨⟨"r", ⟨2, [⟨"first.dom", "first", "/a", [("k1", "v1")]⟩,
              ⟨"second.dom", "second", "/b", [("k2", "v2")]⟩]⟩, ⟨"t", []⟩, []⟩,
          "E"⟩).DistributionConfig.OriginsMember.Items =
      [⟨"bkt.s3.amazonaws.com", "S3-bkt/v2.0.0", "/v2.0.0", [("k2", "v2")]⟩] := by
  have h := updateDistConfig_single_origin "D1" "bkt" "2.0.0"
    ⟨⟨"r", ⟨2, [⟨"first.dom", "first", "/a", [("k1", "v1")]⟩,
          ⟨"second.dom", "second", "/b", [("k2", "v2")]⟩]⟩, ⟨"t", []⟩, []⟩,
      "E"⟩ (by decide)
  exact ⟨h.1, h.2.2.trans (by decide)⟩

/-- Counterexample for C8 as stated: a storage state whose prefixes arrive
sorted ascending exactly as S3 returns them, with `v1.10/` created after
`v1.9/`, for which the derived ordering is not descending by recency. -/
theorem listVersionEntries_recency_counterexample :
    List.Chain' (fun a b => charListLt a.dir.data b.dir.data = true)
        [StoredVersion.mk "v1.10/" 2, StoredVersion.mk "v1.9/" 1] ∧
    ¬ List.Chain' (fun a b => b.2 ≤ a.2)
        (listVersionEntries [StoredVersion.mk "v1.10/" 2, StoredVersion.mk "v1.9/" 1]) := by
  have hlist : listVersionEntries [StoredVersion.mk "v1.10/" 2, StoredVersion.mk "v1.9/" 1] =
      [("1.9", 1), ("1.10", 2)] := by decide
  constructor
  · exact List.chain'_pair.mpr (by decide)
  · rw [hlist]
    intro hchain
    have := List.chain'_pair.mp hchain
    omega

/-- C8 (amended): the pruner's ordering is the reversed provider listing,
so it is descending by recency exactly on storage states where the
ascending-prefix order S3 returns agrees with creation order. -/
theorem listVersionEntries_desc_recency (entries : List StoredVersion)
    (_hsorted : List.Chain' (fun a b => charListLt a.dir.data b.dir.data = true) entries)
    (htimes : List.Chain' (fun a b => a.createdAt ≤ b.createdAt) entries) :
    List.Chain' (fun a b => b.2 ≤ a.2) (listVersionEntries entries) := by
  unfold listVersionEntries
  rw [List.chain'_reverse, List.chain'_map]
  exact List.Chain'.imp (fun a b hab => hab) htimes

/-- Witness for C8 (amended): two versions created in ascending prefix
order list with times descending. -/
theorem listVersionEntries_desc_recency_witness :
    List.Chain' (fun a b => b.2 ≤ a.2)
      (listVersionEntries [StoredVersion.mk "v1.0.0/" 1, StoredVersion.mk "v1.0.1/" 2]) :=
  listVersionEntries_desc_recency
    [StoredVersion.mk "v1.0.0/" 1, StoredVersion.mk "v1.0.1/" 2]
    (List.chain'_pair.mpr (by decide)) (List.chain'_pair.mpr (by decide))

end Slseed
